import Mathlib

/-!
Shallow embedding of scripts/extract-clang-format-translations.py.

The script reads one file, applies the regular expression

  backslash-brace, backslash-s-star, key colon, backslash-s-star, quote,
  capture of one or more non-quote characters, quote, comma, then the same
  shape for name and for description

via re.findall, prints a count line, a fixed prompt banner, one diagnostic
block per match, and a JSON template mapping generated keys to empty
strings.

The pattern alternates literal chunks whose first character is not a
whitespace character with greedy whitespace runs, and greedy non-quote
captures each followed by a quote: after a maximal run the next character
can never satisfy the part that was given up, so the Python backtracking
matcher is equivalent to the deterministic one-pass matcher defined here.
re.findall scans left to right, and on a match resumes after the match;
every attempt consumes at least one character, so fuel equal to the input
length always suffices in findAllF.
-/

set_option maxRecDepth 8000 in
/-- Whitespace characters matched by backslash-s in a Python 3 str pattern. -/
def isPySpace (c : Char) : Bool :=
  c == ' ' || c == '\t' || c == '\n' || c == '\r' || c == '\x0b' || c == '\x0c' ||
  c == '\x1c' || c == '\x1d' || c == '\x1e' || c == '\x1f' || c == '\x85' || c == '\xa0' ||
  c == ' ' || (0x2000 ≤ c.toNat && c.toNat ≤ 0x200a) || c == ' ' ||
  c == ' ' || c == ' ' || c == ' ' || c == '　'

/-- The single-quote character that delimits the captured fields. -/
def quoteC : Char := '\x27'

/-- Matches a literal list of characters at the head of the input,
returning the remainder. -/
def litM : List Char → List Char → Option (List Char)
  | [], s => some s
  | _ :: _, [] => none
  | c :: l, x :: s => if c = x then litM l s else none

/-- Character admitted inside a captured field: anything but a single quote. -/
def notQuote (c : Char) : Bool := c != quoteC

/-- Greedy capture of one or more non-quote characters. -/
def capM (s : List Char) : Option (List Char × List Char) :=
  if s.takeWhile notQuote = [] then none
  else some (s.takeWhile notQuote, s.dropWhile notQuote)

/-- One labelled field of the record pattern: optional whitespace, the label,
optional whitespace, a quote, a non-empty capture, a quote and a comma. -/
def fieldM (label : List Char) (s : List Char) : Option (List Char × List Char) :=
  match litM label (s.dropWhile isPySpace) with
  | none => none
  | some s1 =>
    match litM [quoteC] (s1.dropWhile isPySpace) with
    | none => none
    | some s2 =>
      match capM s2 with
      | none => none
      | some vs =>
        match litM [quoteC, ','] vs.2 with
        | none => none
        | some s3 => some (vs.1, s3)

/-- One attempt of the whole record pattern at the head of the input. -/
def matchAt (s : List Char) : Option ((List Char × List Char × List Char) × List Char) :=
  match litM ['\x7b'] s with
  | none => none
  | some s1 =>
    match fieldM "key:".data s1 with
    | none => none
    | some ks =>
      match fieldM "name:".data ks.2 with
      | none => none
      | some ns =>
        match fieldM "description:".data ns.2 with
        | none => none
        | some ds => some ((ks.1, ns.1, ds.1), ds.2)

/-- Left-to-right non-overlapping scan, with explicit fuel. -/
def findAllF : Nat → List Char → List (List Char × List Char × List Char)
  | 0, _ => []
  | _ + 1, [] => []
  | fuel + 1, c :: cs =>
    match matchAt (c :: cs) with
    | some (t, rest) => t :: findAllF fuel rest
    | none => findAllF fuel cs

/-- re.findall of the pattern over a character list. -/
def findAllL (s : List Char) : List (List Char × List Char × List Char) :=
  findAllF s.length s

/-- matches = re.findall(pattern, content). -/
def extract (content : String) : List (String × String × String) :=
  (findAllL content.data).map fun t => (String.mk t.1, String.mk t.2.1, String.mk t.2.2)

/-- Generated name key for one configuration identifier. -/
def nameKey (k : String) : String := "clangFormat.option." ++ k ++ ".name"

/-- Generated description key for one configuration identifier. -/
def descKey (k : String) : String := "clangFormat.option." ++ k ++ ".description"

/-- Python dict assignment d[k] = v: replace in place when the key is
present, else append at the end. -/
def dictInsert (d : List (String × String)) (k v : String) : List (String × String) :=
  if k ∈ d.map Prod.fst then d.map (fun p => if p.1 = k then (p.1, v) else p)
  else d ++ [(k, v)]

/-- translation_data built by the for loop over the matches. -/
def buildTemplate (ms : List (String × String × String)) : List (String × String) :=
  ms.foldl (fun d m => dictInsert (dictInsert d (nameKey m.1) "") (descKey m.1) "") []

/-- The template the script prints for a given file content. -/
def templateOf (content : String) : List (String × String) :=
  buildTemplate (extract content)

/-- Key list of the printed template, in insertion order. -/
def templateKeys (content : String) : List String :=
  (templateOf content).map Prod.fst

/-- Lowercase hexadecimal digit. -/
def hexDigit (n : Nat) : Char := Char.ofNat (if n < 10 then 48 + n else 87 + n)

/-- Four lowercase hexadecimal digits. -/
def hex4 (n : Nat) : String :=
  String.mk [hexDigit (n / 4096 % 16), hexDigit (n / 256 % 16), hexDigit (n / 16 % 16),
    hexDigit (n % 16)]

/-- Escaping of one character as json.dumps does with ensure_ascii=False. -/
def jsonEscapeChar (c : Char) : String :=
  if c = '"' then "\\\""
  else if c = '\\' then "\\\\"
  else if c = '\n' then "\\n"
  else if c = '\r' then "\\r"
  else if c = '\t' then "\\t"
  else if c = '\x08' then "\\b"
  else if c = '\x0c' then "\\f"
  else if c.toNat < 32 then "\\u" ++ hex4 c.toNat
  else String.mk [c]

/-- JSON string-body escaping. -/
def jsonEscape (s : String) : String := String.join (s.data.map jsonEscapeChar)

/-- json.dumps(d, ensure_ascii=False, indent=2) for a flat string-to-string
mapping rendered from an insertion-ordered association list. -/
def jsonDumps (d : List (String × String)) : String :=
  if d = [] then "\x7b\x7d"
  else "\x7b\n" ++
    String.intercalate ",\n"
      (d.map fun p => "  \"" ++ jsonEscape p.1 ++ "\": \"" ++ jsonEscape p.2 ++ "\"") ++
    "\n\x7d"

/-- The separator rule of eighty equal signs. -/
def eqLine : String := String.mk (List.replicate 80 '=')

/-- Content of the f-string of the count line (print appends one more
newline). -/
def foundLine (content : String) : String :=
  "找到 " ++ Nat.repr (extract content).length ++ " 个配置项\n"

/-- The fixed banner printed between the count line and the diagnostic
blocks. -/
def promptBanner : String :=
  eqLine ++ "\n" ++ "AI 翻译提示词:" ++ "\n" ++ eqLine ++ "\n" ++ "\n" ++
  "请将以下 clang-format 配置项从中文翻译为英文 JSON 格式。" ++ "\n" ++
  "保持专业术语准确性,参考 clang-format 官方文档。" ++ "\n" ++ "\n" ++
  "输出格式示例:" ++ "\n" ++ "\x7b" ++ "\n" ++
  "  \"clangFormat.option.BasedOnStyle.name\": \"Based On Style\"," ++ "\n" ++
  "  \"clangFormat.option.BasedOnStyle.description\": \"The base coding style to inherit from...\"" ++ "\n" ++
  "\x7d" ++ "\n" ++ "\n" ++ "待翻译内容:" ++ "\n" ++ "\n"

/-- Diagnostic block printed for one match. -/
def diagBlock (m : String × String × String) : String :=
  "配置项: " ++ m.1 ++ "\n" ++ "  中文名称: " ++ m.2.1 ++ "\n" ++
  "  中文描述: " ++ m.2.2 ++ "\n" ++ "\n"

/-- Trailing section: blank line, separator, banner, separator, JSON. -/
def jsonSection (content : String) : String :=
  "\n" ++ eqLine ++ "\n" ++ "JSON 模板 (填写英文翻译):" ++ "\n" ++ eqLine ++ "\n" ++
  jsonDumps (templateOf content) ++ "\n"

/-- Entire standard output of the script as a function of the file content.
The script consults no command-line arguments and no environment, which the
definition records by ignoring both extra parameters. -/
def runScript (content : String) (_args : List String)
    (_env : List (String × String)) : String :=
  foundLine content ++ "\n" ++ promptBanner ++
  String.join ((extract content).map diagBlock) ++ jsonSection content

/-- Outcome of opening and reading the fixed input file. -/
inductive FileOutcome where
  | missing
  | unreadable
  | undecodable
  | ok (content : String)

/-- Python exception class raised for each failing outcome. -/
def loadErrMsg : FileOutcome → String
  | .missing => "FileNotFoundError"
  | .unreadable => "PermissionError"
  | .undecodable => "UnicodeDecodeError"
  | .ok _ => ""

/-- Whether the load succeeds. -/
def isOk : FileOutcome → Bool
  | .ok _ => true
  | _ => false

/-- The open-and-read at the top of the script: no try block surrounds it,
so a failure propagates as the raised exception. -/
def loadFile : FileOutcome → Except String String
  | .ok c => .ok c
  | .missing => .error (loadErrMsg .missing)
  | .unreadable => .error (loadErrMsg .unreadable)
  | .undecodable => .error (loadErrMsg .undecodable)

/-- The whole process: load, then the straight-line report pipeline; a load
error terminates the run with that error and no output is produced. -/
def runProcess (fs : FileOutcome) (args : List String)
    (env : List (String × String)) : Except String String :=
  match loadFile fs with
  | .error e => .error e
  | .ok c => .ok (runScript c args env)

/-- Canonical source text of one record with the given field contents. -/
def mkRecordL (k n d : List Char) : List Char :=
  "\x7b key: \x27".data ++ k ++ "\x27, name: \x27".data ++ n ++
  "\x27, description: \x27".data ++ d ++ "\x27, \x7d,\n".data

/-- Source text listing the given records one after the other. -/
def mkFileL : List (List Char × List Char × List Char) → List Char
  | [] => []
  | r :: rs => mkRecordL r.1 r.2.1 r.2.2 ++ mkFileL rs

/-- String version of mkFileL over string-valued records. -/
def mkFile (rs : List (String × String × String)) : String :=
  String.mk (mkFileL (rs.map fun r => (r.1.data, r.2.1.data, r.2.2.data)))

/-- Record variant whose description closing quote is followed by a space
rather than a comma: the description is the last property of the record. -/
def mkRecordNCL (k n d : List Char) : List Char :=
  "\x7b key: \x27".data ++ k ++ "\x27, name: \x27".data ++ n ++
  "\x27, description: \x27".data ++ d ++ "\x27 \x7d,\n".data

/-- One-record file in the no-trailing-comma layout. -/
def mkFileNC (r : String × String × String) : String :=
  String.mk (mkRecordNCL r.1.data r.2.1.data r.2.2.data)

/-- Field value the pattern can capture as such: non-empty and free of
single quotes. -/
@[reducible] def goodFieldL (s : List Char) : Prop := s ≠ [] ∧ ∀ c ∈ s, c ≠ quoteC

/-- goodFieldL on strings. -/
@[reducible] def goodField (s : String) : Prop := goodFieldL s.data

/-- Record all three of whose fields are capturable. -/
@[reducible] def goodRec (r : String × String × String) : Prop :=
  goodField r.1 ∧ goodField r.2.1 ∧ goodField r.2.2

/-- Field free of single quotes and of opening braces (possibly empty). -/
@[reducible] def tameFieldL (s : List Char) : Prop := ∀ c ∈ s, c ≠ quoteC ∧ c ≠ '\x7b'

/-- tameFieldL on strings. -/
@[reducible] def tameField (s : String) : Prop := tameFieldL s.data

/-! ### Lemmas about the scanner -/

lemma litM_app : ∀ (l s : List Char), litM l (l ++ s) = some s
  | [], _ => rfl
  | c :: l, s => by simp [litM, litM_app l s]

lemma litM_le : ∀ (l s r : List Char), litM l s = some r → r.length ≤ s.length
  | [], s, r, h => by
    simp only [litM, Option.some.injEq] at h
    exact h ▸ Nat.le_refl _
  | _ :: _, [], _, h => by simp [litM] at h
  | c :: l, x :: s, r, h => by
    by_cases hc : c = x
    · simp only [litM, if_pos hc] at h
      exact Nat.le_succ_of_le (litM_le l s r h)
    · simp [litM, hc] at h

lemma litM_lt (c : Char) (l s r : List Char) (h : litM (c :: l) s = some r) :
    r.length < s.length := by
  cases s with
  | nil => simp [litM] at h
  | cons x s =>
    by_cases hc : c = x
    · simp only [litM, if_pos hc] at h
      exact Nat.lt_succ_of_le (litM_le l s r h)
    · simp [litM, hc] at h

lemma length_dropWhile_le (p : Char → Bool) : ∀ s : List Char, (s.dropWhile p).length ≤ s.length
  | [] => Nat.le_refl _
  | c :: s => by
    rw [List.dropWhile_cons]
    split
    · exact Nat.le_succ_of_le (length_dropWhile_le p s)
    · exact Nat.le_refl _

lemma takeWhile_quoteFree : ∀ (v rest : List Char), (∀ c ∈ v, c ≠ quoteC) →
    (v ++ quoteC :: rest).takeWhile notQuote = v ∧
      (v ++ quoteC :: rest).dropWhile notQuote = quoteC :: rest
  | [], rest, _ => by
    constructor <;> simp [List.takeWhile_cons, List.dropWhile_cons, notQuote]
  | c :: v, rest, h => by
    have hc : notQuote c = true := by
      simp [notQuote, h c (List.mem_cons_self c v)]
    have ih := takeWhile_quoteFree v rest (fun x hx => h x (List.mem_cons_of_mem _ hx))
    refine ⟨?_, ?_⟩
    · rw [List.cons_append, List.takeWhile_cons_of_pos hc, ih.1]
    · rw [List.cons_append, List.dropWhile_cons_of_pos hc, ih.2]

lemma capM_app (v rest : List Char) (hv : goodFieldL v) :
    capM (v ++ quoteC :: rest) = some (v, quoteC :: rest) := by
  obtain ⟨hne, hq⟩ := hv
  have h := takeWhile_quoteFree v rest hq
  simp [capM, h.1, h.2, hne]

lemma capM_le (s v r : List Char) (h : capM s = some (v, r)) : r.length ≤ s.length := by
  simp only [capM] at h
  split at h
  · exact absurd h (by simp)
  · simp only [Option.some.injEq, Prod.mk.injEq] at h
    exact h.2 ▸ length_dropWhile_le notQuote s

lemma capM_good (s v r : List Char) (h : capM s = some (v, r)) : goodFieldL v := by
  simp only [capM] at h
  split at h
  · exact absurd h (by simp)
  · simp only [Option.some.injEq, Prod.mk.injEq] at h
    refine ⟨h.1 ▸ ‹¬s.takeWhile notQuote = []›, ?_⟩
    intro c hc
    have : notQuote c = true := List.mem_takeWhile_imp (h.1 ▸ hc)
    simpa [notQuote] using this

lemma fieldM_app (label : List Char)
    (hl : ∃ c l, label = c :: l ∧ isPySpace c = false)
    (v rest : List Char) (hv : goodFieldL v) :
    fieldM label (' ' :: (label ++ (' ' :: quoteC :: (v ++ quoteC :: ',' :: rest)))) =
      some (v, rest) := by
  obtain ⟨c, l, rfl, hc⟩ := hl
  have h1 : (' ' :: ((c :: l) ++ (' ' :: quoteC :: (v ++ quoteC :: ',' :: rest)))).dropWhile
      isPySpace = (c :: l) ++ (' ' :: quoteC :: (v ++ quoteC :: ',' :: rest)) := by
    rw [List.dropWhile_cons_of_pos (by decide), List.cons_append,
      List.dropWhile_cons_of_neg (by simp [hc])]
  have h2 : (' ' :: quoteC :: (v ++ quoteC :: ',' :: rest)).dropWhile isPySpace =
      quoteC :: (v ++ quoteC :: ',' :: rest) := by
    rw [List.dropWhile_cons_of_pos (by decide),
      List.dropWhile_cons_of_neg (by decide)]
  have h3 : litM [quoteC] (quoteC :: (v ++ quoteC :: ',' :: rest)) =
      some (v ++ quoteC :: ',' :: rest) := by simp [litM]
  have h4 := capM_app v (',' :: rest) hv
  have h5 : litM [quoteC, ','] (quoteC :: ',' :: rest) = some rest := by simp [litM]
  simp only [fieldM, h1, litM_app, h2, h3, h4, h5]

lemma fieldM_le (label s v r : List Char) (h : fieldM label s = some (v, r)) :
    r.length ≤ s.length := by
  simp only [fieldM] at h
  split at h
  · exact absurd h (by simp)
  next s1 h1 =>
    split at h
    · exact absurd h (by simp)
    next s2 h2 =>
      split at h
      · exact absurd h (by simp)
      next vs h3 =>
        split at h
        · exact absurd h (by simp)
        next s3 h4 =>
          simp only [Option.some.injEq, Prod.mk.injEq] at h
          obtain ⟨_, hr⟩ := h
          subst hr
          have e1 := litM_le _ _ _ h1
          have e2 := litM_le _ _ _ h2
          have e3 := capM_le s2 vs.1 vs.2 (by rw [h3])
          have e4 := litM_le _ _ _ h4
          have d1 := length_dropWhile_le isPySpace s
          have d2 := length_dropWhile_le isPySpace s1
          omega

lemma fieldM_good (label s v r : List Char) (h : fieldM label s = some (v, r)) :
    goodFieldL v := by
  simp only [fieldM] at h
  split at h
  · exact absurd h (by simp)
  next s1 h1 =>
    split at h
    · exact absurd h (by simp)
    next s2 h2 =>
      split at h
      · exact absurd h (by simp)
      next vs h3 =>
        split at h
        · exact absurd h (by simp)
        next s3 h4 =>
          simp only [Option.some.injEq, Prod.mk.injEq] at h
          exact h.1 ▸ capM_good s2 vs.1 vs.2 (by rw [h3])

lemma fieldM_key (v rest : List Char) (hv : goodFieldL v) :
    fieldM ['k', 'e', 'y', ':']
      (' ' :: 'k' :: 'e' :: 'y' :: ':' :: ' ' :: quoteC :: (v ++ quoteC :: ',' :: rest)) =
      some (v, rest) := by
  have h := fieldM_app "key:".data ⟨'k', 'e' :: 'y' :: ':' :: [], rfl, by decide⟩ v rest hv
  rw [show "key:".data = 'k' :: 'e' :: 'y' :: ':' :: [] from rfl] at h
  simpa only [List.cons_append, List.nil_append] using h

lemma fieldM_name (v rest : List Char) (hv : goodFieldL v) :
    fieldM ['n', 'a', 'm', 'e', ':']
      (' ' :: 'n' :: 'a' :: 'm' :: 'e' :: ':' :: ' ' :: quoteC ::
        (v ++ quoteC :: ',' :: rest)) = some (v, rest) := by
  have h := fieldM_app "name:".data ⟨'n', 'a' :: 'm' :: 'e' :: ':' :: [], rfl, by decide⟩ v rest hv
  rw [show "name:".data = 'n' :: 'a' :: 'm' :: 'e' :: ':' :: [] from rfl] at h
  simpa only [List.cons_append, List.nil_append] using h

lemma fieldM_desc (v rest : List Char) (hv : goodFieldL v) :
    fieldM ['d', 'e', 's', 'c', 'r', 'i', 'p', 't', 'i', 'o', 'n', ':']
      (' ' :: 'd' :: 'e' :: 's' :: 'c' :: 'r' :: 'i' :: 'p' :: 't' :: 'i' :: 'o' :: 'n' ::
        ':' :: ' ' :: quoteC :: (v ++ quoteC :: ',' :: rest)) = some (v, rest) := by
  have h := fieldM_app "description:".data
    ⟨'d', 'e' :: 's' :: 'c' :: 'r' :: 'i' :: 'p' :: 't' :: 'i' :: 'o' :: 'n' :: ':' :: [],
      rfl, by decide⟩ v rest hv
  rw [show "description:".data =
    'd' :: 'e' :: 's' :: 'c' :: 'r' :: 'i' :: 'p' :: 't' :: 'i' :: 'o' :: 'n' :: ':' :: []
    from rfl] at h
  simpa only [List.cons_append, List.nil_append] using h

lemma matchAt_mkRecordL (k n d tail : List Char)
    (hk : goodFieldL k) (hn : goodFieldL n) (hd : goodFieldL d) :
    matchAt (mkRecordL k n d ++ tail) =
      some ((k, n, d), ' ' :: '\x7d' :: ',' :: '\n' :: tail) := by
  have hshape : mkRecordL k n d ++ tail =
      '\x7b' :: ' ' :: 'k' :: 'e' :: 'y' :: ':' :: ' ' :: quoteC ::
        (k ++ quoteC :: ',' ::
          (' ' :: 'n' :: 'a' :: 'm' :: 'e' :: ':' :: ' ' :: quoteC ::
            (n ++ quoteC :: ',' ::
              (' ' :: 'd' :: 'e' :: 's' :: 'c' :: 'r' :: 'i' :: 'p' :: 't' :: 'i' :: 'o' ::
                'n' :: ':' :: ' ' :: quoteC ::
                (d ++ quoteC :: ',' ::
                  (' ' :: '\x7d' :: ',' :: '\n' :: tail)))))) := by
    simp [mkRecordL, quoteC, List.append_assoc]
  rw [hshape]
  have hlit : ∀ xs : List Char, litM ['\x7b'] ('\x7b' :: xs) = some xs := by
    intro xs; simp [litM]
  simp only [matchAt, hlit, fieldM_key k _ hk, fieldM_name n _ hn, fieldM_desc d _ hd]

lemma matchAt_le (s : List Char) (t : List Char × List Char × List Char) (r : List Char)
    (h : matchAt s = some (t, r)) : r.length < s.length := by
  simp only [matchAt] at h
  split at h
  · exact absurd h (by simp)
  next s1 h1 =>
    split at h
    · exact absurd h (by simp)
    next ks h2 =>
      split at h
      · exact absurd h (by simp)
      next ns h3 =>
        split at h
        · exact absurd h (by simp)
        next ds h4 =>
          simp only [Option.some.injEq, Prod.mk.injEq] at h
          have e1 := litM_lt '\x7b' [] s s1 h1
          have e2 := fieldM_le _ _ _ _ (by rw [h2])
          have e3 := fieldM_le _ _ _ _ (by rw [h3])
          have e4 := fieldM_le _ _ _ _ (by rw [h4])
          obtain ⟨-, hr⟩ := h
          rw [← hr]
          omega

lemma matchAt_good (s : List Char) (k n d r : List Char)
    (h : matchAt s = some ((k, n, d), r)) :
    goodFieldL k ∧ goodFieldL n ∧ goodFieldL d := by
  simp only [matchAt] at h
  split at h
  · exact absurd h (by simp)
  next s1 h1 =>
    split at h
    · exact absurd h (by simp)
    next ks h2 =>
      split at h
      · exact absurd h (by simp)
      next ns h3 =>
        split at h
        · exact absurd h (by simp)
        next ds h4 =>
          simp only [Option.some.injEq, Prod.mk.injEq] at h
          obtain ⟨⟨e1, e2, e3⟩, _⟩ := h
          exact ⟨e1 ▸ fieldM_good _ _ _ _ (by rw [h2]),
            e2 ▸ fieldM_good _ _ _ _ (by rw [h3]),
            e3 ▸ fieldM_good _ _ _ _ (by rw [h4])⟩

lemma matchAt_none_of_ne (c : Char) (cs : List Char) (h : c ≠ '\x7b') :
    matchAt (c :: cs) = none := by
  have hlit : litM ['\x7b'] (c :: cs) = none := by
    simp only [litM]
    rw [if_neg (show ¬('\x7b' = c) from fun hh => h hh.symm)]
  simp only [matchAt, hlit]

/-! ### Lemmas about the scan -/

lemma findAllF_fuel : ∀ (fuel fuel' : Nat) (s : List Char), s.length ≤ fuel →
    s.length ≤ fuel' → findAllF fuel s = findAllF fuel' s := by
  intro fuel
  induction fuel with
  | zero =>
    intro fuel' s h _
    cases s with
    | nil => cases fuel' <;> rfl
    | cons c cs => simp at h
  | succ m ih =>
    intro fuel' s h h'
    cases s with
    | nil => cases fuel' <;> rfl
    | cons c cs =>
      cases fuel' with
      | zero => simp at h'
      | succ m' =>
        simp only [findAllF]
        cases hm : matchAt (c :: cs) with
        | none =>
          simp only [List.length_cons] at h h'
          exact ih m' cs (by omega) (by omega)
        | some tr =>
          obtain ⟨t, r⟩ := tr
          have hr := matchAt_le _ _ _ hm
          simp only [List.length_cons] at h h' hr
          exact congrArg (List.cons t) (ih m' r (by omega) (by omega))

lemma findAllL_nil : findAllL [] = [] := rfl

lemma findAllL_cons_none {c : Char} {cs : List Char} (h : matchAt (c :: cs) = none) :
    findAllL (c :: cs) = findAllL cs := by
  simp only [findAllL, List.length_cons, findAllF, h]

lemma findAllL_cons_some {c : Char} {cs r : List Char}
    {t : List Char × List Char × List Char} (h : matchAt (c :: cs) = some (t, r)) :
    findAllL (c :: cs) = t :: findAllL r := by
  have hr : r.length ≤ cs.length := by
    have := matchAt_le _ _ _ h
    simp only [List.length_cons] at this
    omega
  simp only [findAllL, List.length_cons, findAllF, h]
  exact congrArg (List.cons t) (findAllF_fuel cs.length r.length r hr (Nat.le_refl _))

lemma findAllL_eq_cons {s r : List Char} {t : List Char × List Char × List Char}
    (hne : s ≠ []) (h : matchAt s = some (t, r)) : findAllL s = t :: findAllL r := by
  cases s with
  | nil => exact absurd rfl hne
  | cons c cs => exact findAllL_cons_some h

lemma findAllL_no_brace : ∀ s : List Char, (∀ c ∈ s, c ≠ '\x7b') → findAllL s = []
  | [], _ => rfl
  | c :: cs, h => by
    rw [findAllL_cons_none (matchAt_none_of_ne c cs (h c (List.mem_cons_self c cs)))]
    exact findAllL_no_brace cs (fun x hx => h x (List.mem_cons_of_mem _ hx))

lemma findAllL_skip4 (l : List Char) :
    findAllL (' ' :: '\x7d' :: ',' :: '\n' :: l) = findAllL l := by
  rw [findAllL_cons_none (matchAt_none_of_ne _ _ (by decide)),
      findAllL_cons_none (matchAt_none_of_ne _ _ (by decide)),
      findAllL_cons_none (matchAt_none_of_ne _ _ (by decide)),
      findAllL_cons_none (matchAt_none_of_ne _ _ (by decide))]

lemma findAllL_mkFileL : ∀ rs : List (List Char × List Char × List Char),
    (∀ r ∈ rs, goodFieldL r.1 ∧ goodFieldL r.2.1 ∧ goodFieldL r.2.2) →
    findAllL (mkFileL rs) = rs
  | [], _ => rfl
  | r :: rs, h => by
    obtain ⟨hk, hn, hd⟩ := h r (List.mem_cons_self r rs)
    have hm := matchAt_mkRecordL r.1 r.2.1 r.2.2 (mkFileL rs) hk hn hd
    have hne : mkRecordL r.1 r.2.1 r.2.2 ++ mkFileL rs ≠ [] := by simp [mkRecordL]
    rw [show mkFileL (r :: rs) = mkRecordL r.1 r.2.1 r.2.2 ++ mkFileL rs from rfl,
      findAllL_eq_cons hne hm, findAllL_skip4,
      findAllL_mkFileL rs (fun x hx => h x (List.mem_cons_of_mem _ hx))]

lemma extract_mkFile (rs : List (String × String × String)) (h : ∀ r ∈ rs, goodRec r) :
    extract (mkFile rs) = rs := by
  unfold extract mkFile
  rw [show (String.mk (mkFileL (rs.map fun r => (r.1.data, r.2.1.data, r.2.2.data)))).data
      = mkFileL (rs.map fun r => (r.1.data, r.2.1.data, r.2.2.data)) from rfl]
  rw [findAllL_mkFileL _ (by
    intro r' hr'
    obtain ⟨r, hr, he⟩ := List.mem_map.mp hr'
    subst he
    exact h r hr)]
  rw [List.map_map]
  exact List.map_id rs

lemma findAllF_good : ∀ (fuel : Nat) (s : List Char) (t : List Char × List Char × List Char),
    t ∈ findAllF fuel s → goodFieldL t.1 ∧ goodFieldL t.2.1 ∧ goodFieldL t.2.2 := by
  intro fuel
  induction fuel with
  | zero => intro s t ht; simp [findAllF] at ht
  | succ m ih =>
    intro s t ht
    cases s with
    | nil => simp [findAllF] at ht
    | cons c cs =>
      cases hm : matchAt (c :: cs) with
      | none =>
        simp only [findAllF, hm] at ht
        exact ih cs t ht
      | some tr =>
        obtain ⟨t0, r⟩ := tr
        simp only [findAllF, hm] at ht
        rcases List.mem_cons.mp ht with h1 | h2
        · subst h1
          exact matchAt_good (c :: cs) t.1 t.2.1 t.2.2 r (by rw [hm])
        · exact ih r t h2

lemma extract_good (content : String) (k n d : String)
    (h : (k, n, d) ∈ extract content) :
    goodField k ∧ goodField n ∧ goodField d := by
  unfold extract findAllL at h
  obtain ⟨t, ht, he⟩ := List.mem_map.mp h
  obtain ⟨h1, h2, h3⟩ := findAllF_good _ _ t ht
  cases he
  exact ⟨h1, h2, h3⟩

/-! ### Lemmas about the template dictionary -/

lemma data_append (a b : String) : (a ++ b).data = a.data ++ b.data := rfl

lemma nameKey_inj {a b : String} (h : nameKey a = nameKey b) : a = b := by
  unfold nameKey at h
  have hd := congrArg String.data h
  rw [data_append, data_append, data_append, data_append] at hd
  exact String.ext (List.append_cancel_left (List.append_cancel_right hd))

lemma descKey_inj {a b : String} (h : descKey a = descKey b) : a = b := by
  unfold descKey at h
  have hd := congrArg String.data h
  rw [data_append, data_append, data_append, data_append] at hd
  exact String.ext (List.append_cancel_left (List.append_cancel_right hd))

lemma nameKey_ne_descKey (a b : String) : nameKey a ≠ descKey b := by
  intro h
  have hd := congrArg (fun s => s.data.reverse.head?) h
  simp only [nameKey, descKey, data_append, List.reverse_append] at hd
  simp at hd

lemma dictInsert_values (d : List (String × String)) (k : String)
    (h : ∀ kv ∈ d, kv.2 = "") : ∀ kv ∈ dictInsert d k "", kv.2 = "" := by
  intro kv hkv
  unfold dictInsert at hkv
  split at hkv
  · obtain ⟨p, hp, he⟩ := List.mem_map.mp hkv
    by_cases hpk : p.1 = k
    · rw [if_pos hpk] at he
      rw [← he]
    · rw [if_neg hpk] at he
      rw [← he]
      exact h p hp
  · rcases List.mem_append.mp hkv with h1 | h1
    · exact h kv h1
    · simp only [List.mem_singleton] at h1
      rw [h1]

lemma buildTemplate_values_aux : ∀ (ms : List (String × String × String))
    (d : List (String × String)), (∀ kv ∈ d, kv.2 = "") →
    ∀ kv ∈ ms.foldl
      (fun d m => dictInsert (dictInsert d (nameKey m.1) "") (descKey m.1) "") d,
      kv.2 = ""
  | [], _, hd => hd
  | _ :: ms, d, hd => by
    simp only [List.foldl_cons]
    exact buildTemplate_values_aux ms _ (dictInsert_values _ _ (dictInsert_values _ _ hd))

lemma buildTemplate_values (ms : List (String × String × String)) :
    ∀ kv ∈ buildTemplate ms, kv.2 = "" :=
  buildTemplate_values_aux ms [] (by simp)

lemma dictInsert_keys (d : List (String × String)) (k v : String) :
    (dictInsert d k v).map Prod.fst =
      if k ∈ d.map Prod.fst then d.map Prod.fst else d.map Prod.fst ++ [k] := by
  unfold dictInsert
  split
  next h =>
    rw [List.map_map]
    apply List.map_congr_left
    intro p _
    by_cases hpk : p.1 = k
    · simp [hpk]
    · simp [hpk]
  next h =>
    simp

/-- Keys generated in order for a list of identifiers: name key then
description key for each. -/
def pairKeysS : List String → List String
  | [] => []
  | k :: ks => nameKey k :: descKey k :: pairKeysS ks

/-- Identifiers in first-occurrence order that are not in the seen list. -/
def newIdents : List String → List String → List String
  | _, [] => []
  | seen, k :: ks => if k ∈ seen then newIdents seen ks else k :: newIdents (k :: seen) ks

lemma pairKeysS_length : ∀ l : List String, (pairKeysS l).length = 2 * l.length
  | [] => rfl
  | _ :: ks => by
    simp only [pairKeysS, List.length_cons, pairKeysS_length ks]
    omega

lemma buildTemplate_keys_aux :
    ∀ (ms : List (String × String × String)) (d : List (String × String))
      (seen : List String),
      (∀ j, nameKey j ∈ d.map Prod.fst ↔ j ∈ seen) →
      (∀ j, descKey j ∈ d.map Prod.fst ↔ j ∈ seen) →
      (ms.foldl (fun d m => dictInsert (dictInsert d (nameKey m.1) "") (descKey m.1) "") d).map
          Prod.fst =
        d.map Prod.fst ++ pairKeysS (newIdents seen (ms.map (fun m => m.1)))
  | [], d, seen, _, _ => by simp [newIdents, pairKeysS]
  | m :: ms, d, seen, hn, hd => by
    simp only [List.foldl_cons, List.map_cons]
    by_cases hks : m.1 ∈ seen
    · have h1 : nameKey m.1 ∈ d.map Prod.fst := (hn m.1).mpr hks
      have hkeys1 : (dictInsert d (nameKey m.1) "").map Prod.fst = d.map Prod.fst := by
        rw [dictInsert_keys, if_pos h1]
      have h2 : descKey m.1 ∈ (dictInsert d (nameKey m.1) "").map Prod.fst := by
        rw [hkeys1]
        exact (hd m.1).mpr hks
      have hkeys2 : (dictInsert (dictInsert d (nameKey m.1) "") (descKey m.1) "").map Prod.fst
          = d.map Prod.fst := by
        rw [dictInsert_keys, if_pos h2, hkeys1]
      rw [show newIdents seen (m.1 :: ms.map (fun m => m.1)) =
            newIdents seen (ms.map (fun m => m.1)) from by rw [newIdents, if_pos hks]]
      rw [buildTemplate_keys_aux ms _ seen (fun j => by rw [hkeys2]; exact hn j)
            (fun j => by rw [hkeys2]; exact hd j)]
      rw [hkeys2]
    · have h1 : nameKey m.1 ∉ d.map Prod.fst := fun hh => hks ((hn m.1).mp hh)
      have hkeys1 : (dictInsert d (nameKey m.1) "").map Prod.fst
          = d.map Prod.fst ++ [nameKey m.1] := by
        rw [dictInsert_keys, if_neg h1]
      have h2 : descKey m.1 ∉ (dictInsert d (nameKey m.1) "").map Prod.fst := by
        rw [hkeys1]
        intro hh
        rcases List.mem_append.mp hh with hh1 | hh1
        · exact hks ((hd m.1).mp hh1)
        · simp only [List.mem_singleton] at hh1
          exact nameKey_ne_descKey m.1 m.1 hh1.symm
      have hkeys2 : (dictInsert (dictInsert d (nameKey m.1) "") (descKey m.1) "").map Prod.fst
          = d.map Prod.fst ++ [nameKey m.1, descKey m.1] := by
        rw [dictInsert_keys, if_neg h2, hkeys1, List.append_assoc]
        rfl
      have hn' : ∀ j, nameKey j ∈ (dictInsert (dictInsert d (nameKey m.1) "")
          (descKey m.1) "").map Prod.fst ↔ j ∈ m.1 :: seen := by
        intro j
        have base : nameKey j ∈ d.map Prod.fst ++ [nameKey m.1, descKey m.1] ↔
            (nameKey j ∈ d.map Prod.fst ∨ nameKey j = nameKey m.1 ∨
              nameKey j = descKey m.1) := by simp
        rw [hkeys2, base, hn j, List.mem_cons]
        constructor
        · rintro (hj | hj | hj)
          · exact Or.inr hj
          · exact Or.inl (nameKey_inj hj)
          · exact absurd hj (nameKey_ne_descKey j m.1)
        · rintro (hj | hj)
          · exact Or.inr (Or.inl (by rw [hj]))
          · exact Or.inl hj
      have hd' : ∀ j, descKey j ∈ (dictInsert (dictInsert d (nameKey m.1) "")
          (descKey m.1) "").map Prod.fst ↔ j ∈ m.1 :: seen := by
        intro j
        have base : descKey j ∈ d.map Prod.fst ++ [nameKey m.1, descKey m.1] ↔
            (descKey j ∈ d.map Prod.fst ∨ descKey j = nameKey m.1 ∨
              descKey j = descKey m.1) := by simp
        rw [hkeys2, base, hd j, List.mem_cons]
        constructor
        · rintro (hj | hj | hj)
          · exact Or.inr hj
          · exact absurd hj.symm (nameKey_ne_descKey m.1 j)
          · exact Or.inl (descKey_inj hj)
        · rintro (hj | hj)
          · exact Or.inr (Or.inr (by rw [hj]))
          · exact Or.inl hj
      rw [show newIdents seen (m.1 :: ms.map (fun m => m.1)) =
            m.1 :: newIdents (m.1 :: seen) (ms.map (fun m => m.1)) from by
          rw [newIdents, if_neg hks]]
      rw [buildTemplate_keys_aux ms _ (m.1 :: seen) hn' hd', hkeys2, pairKeysS]
      simp [List.append_assoc]

lemma buildTemplate_keys (ms : List (String × String × String)) :
    (buildTemplate ms).map Prod.fst = pairKeysS (newIdents [] (ms.map (fun m => m.1))) := by
  have h := buildTemplate_keys_aux ms [] [] (by simp) (by simp)
  simpa [buildTemplate] using h

lemma newIdents_of_nodup : ∀ (l seen : List String), l.Nodup → (∀ k ∈ l, k ∉ seen) →
    newIdents seen l = l
  | [], _, _, _ => rfl
  | k :: ks, seen, hnd, hs => by
    rw [show newIdents seen (k :: ks) =
          if k ∈ seen then newIdents seen ks else k :: newIdents (k :: seen) ks from rfl,
        if_neg (hs k (List.mem_cons_self k ks))]
    congr 1
    apply newIdents_of_nodup ks (k :: seen) (List.Nodup.of_cons hnd)
    intro x hx hmem
    rcases List.mem_cons.mp hmem with h1 | h1
    · subst h1
      exact (List.nodup_cons.mp hnd).1 hx
    · exact hs x (List.mem_cons_of_mem _ hx) h1

lemma pairKeysS_getD_even : ∀ (l : List String) (i : Nat), i < l.length →
    (pairKeysS l).getD (2 * i) "" = nameKey (l.getD i "")
  | _ :: _, 0, _ => rfl
  | k :: ks, i + 1, h => by
    have h' : i < ks.length := by simpa using h
    calc (pairKeysS (k :: ks)).getD (2 * (i + 1)) ""
        = (pairKeysS ks).getD (2 * i) "" := by
          rw [show 2 * (i + 1) = 2 * i + 1 + 1 from by ring]
          rfl
      _ = nameKey (ks.getD i "") := pairKeysS_getD_even ks i h'
      _ = nameKey ((k :: ks).getD (i + 1) "") := rfl

lemma pairKeysS_getD_odd : ∀ (l : List String) (i : Nat), i < l.length →
    (pairKeysS l).getD (2 * i + 1) "" = descKey (l.getD i "")
  | _ :: _, 0, _ => rfl
  | k :: ks, i + 1, h => by
    have h' : i < ks.length := by simpa using h
    calc (pairKeysS (k :: ks)).getD (2 * (i + 1) + 1) ""
        = (pairKeysS ks).getD (2 * i + 1) "" := by
          rw [show 2 * (i + 1) + 1 = 2 * i + 1 + 1 + 1 from by ring]
          rfl
      _ = descKey (ks.getD i "") := pairKeysS_getD_odd ks i h'
      _ = descKey ((k :: ks).getD (i + 1) "") := rfl

lemma getD_map_fst : ∀ (ms : List (String × String × String)) (i : Nat), i < ms.length →
    (ms.map (fun m => m.1)).getD i "" = (ms.getD i ("", "", "")).1
  | m :: _, 0, _ => rfl
  | _ :: ms, i + 1, h => by
    have h' : i < ms.length := by simpa using h
    simpa using getD_map_fst ms i h'

/-! ### Failure lemmas: empty fields and missing trailing comma -/

lemma litM_brace (xs : List Char) : litM ['\x7b'] ('\x7b' :: xs) = some xs := by
  simp [litM]

lemma fieldM_fail_empty (label : List Char)
    (hl : ∃ c l, label = c :: l ∧ isPySpace c = false) (rest : List Char) :
    fieldM label (' ' :: (label ++ (' ' :: quoteC :: quoteC :: rest))) = none := by
  obtain ⟨c, l, rfl, hc⟩ := hl
  have h1 : (' ' :: ((c :: l) ++ (' ' :: quoteC :: quoteC :: rest))).dropWhile isPySpace =
      (c :: l) ++ (' ' :: quoteC :: quoteC :: rest) := by
    rw [List.dropWhile_cons_of_pos (by decide), List.cons_append,
      List.dropWhile_cons_of_neg (by simp [hc])]
  have h2 : (' ' :: quoteC :: quoteC :: rest).dropWhile isPySpace =
      quoteC :: quoteC :: rest := by
    rw [List.dropWhile_cons_of_pos (by decide), List.dropWhile_cons_of_neg (by decide)]
  have h3 : litM [quoteC] (quoteC :: quoteC :: rest) = some (quoteC :: rest) := by
    simp [litM]
  have h4 : capM (quoteC :: rest) = none := by
    rw [capM, if_pos]
    rw [List.takeWhile_cons_of_neg (by simp [notQuote])]
  simp only [fieldM, h1, litM_app, h2, h3, h4]

lemma fieldM_fail_nocomma (label : List Char)
    (hl : ∃ c l, label = c :: l ∧ isPySpace c = false)
    (v rest : List Char) (hv : goodFieldL v) (c0 : Char) (hc0 : c0 ≠ ',') :
    fieldM label (' ' :: (label ++ (' ' :: quoteC :: (v ++ quoteC :: c0 :: rest)))) =
      none := by
  obtain ⟨c, l, rfl, hc⟩ := hl
  have h1 : (' ' :: ((c :: l) ++ (' ' :: quoteC :: (v ++ quoteC :: c0 :: rest)))).dropWhile
      isPySpace = (c :: l) ++ (' ' :: quoteC :: (v ++ quoteC :: c0 :: rest)) := by
    rw [List.dropWhile_cons_of_pos (by decide), List.cons_append,
      List.dropWhile_cons_of_neg (by simp [hc])]
  have h2 : (' ' :: quoteC :: (v ++ quoteC :: c0 :: rest)).dropWhile isPySpace =
      quoteC :: (v ++ quoteC :: c0 :: rest) := by
    rw [List.dropWhile_cons_of_pos (by decide), List.dropWhile_cons_of_neg (by decide)]
  have h3 : litM [quoteC] (quoteC :: (v ++ quoteC :: c0 :: rest)) =
      some (v ++ quoteC :: c0 :: rest) := by simp [litM]
  have h4 := capM_app v (c0 :: rest) hv
  have h5 : litM [quoteC, ','] (quoteC :: c0 :: rest) = none := by
    have hstep : litM [','] (c0 :: rest) = none := by
      simp only [litM]
      rw [if_neg (show ¬(',' = c0) from fun hh => hc0 hh.symm)]
    show (if quoteC = quoteC then litM [','] (c0 :: rest) else none) = none
    rw [if_pos rfl, hstep]
  simp only [fieldM, h1, litM_app, h2, h3, h4, h5]

lemma fieldM_key_empty (rest : List Char) :
    fieldM ['k', 'e', 'y', ':']
      (' ' :: 'k' :: 'e' :: 'y' :: ':' :: ' ' :: quoteC :: quoteC :: rest) = none := by
  have h := fieldM_fail_empty ['k', 'e', 'y', ':']
    ⟨'k', ['e', 'y', ':'], rfl, by decide⟩ rest
  simpa only [List.cons_append, List.nil_append] using h

lemma fieldM_name_empty (rest : List Char) :
    fieldM ['n', 'a', 'm', 'e', ':']
      (' ' :: 'n' :: 'a' :: 'm' :: 'e' :: ':' :: ' ' :: quoteC :: quoteC :: rest) = none := by
  have h := fieldM_fail_empty ['n', 'a', 'm', 'e', ':']
    ⟨'n', ['a', 'm', 'e', ':'], rfl, by decide⟩ rest
  simpa only [List.cons_append, List.nil_append] using h

lemma fieldM_desc_empty (rest : List Char) :
    fieldM ['d', 'e', 's', 'c', 'r', 'i', 'p', 't', 'i', 'o', 'n', ':']
      (' ' :: 'd' :: 'e' :: 's' :: 'c' :: 'r' :: 'i' :: 'p' :: 't' :: 'i' :: 'o' :: 'n' ::
        ':' :: ' ' :: quoteC :: quoteC :: rest) = none := by
  have h := fieldM_fail_empty ['d', 'e', 's', 'c', 'r', 'i', 'p', 't', 'i', 'o', 'n', ':']
    ⟨'d', ['e', 's', 'c', 'r', 'i', 'p', 't', 'i', 'o', 'n', ':'], rfl, by decide⟩ rest
  simpa only [List.cons_append, List.nil_append] using h

lemma fieldM_desc_nocomma (v rest : List Char) (hv : goodFieldL v)
    (c0 : Char) (hc0 : c0 ≠ ',') :
    fieldM ['d', 'e', 's', 'c', 'r', 'i', 'p', 't', 'i', 'o', 'n', ':']
      (' ' :: 'd' :: 'e' :: 's' :: 'c' :: 'r' :: 'i' :: 'p' :: 't' :: 'i' :: 'o' :: 'n' ::
        ':' :: ' ' :: quoteC :: (v ++ quoteC :: c0 :: rest)) = none := by
  have h := fieldM_fail_nocomma ['d', 'e', 's', 'c', 'r', 'i', 'p', 't', 'i', 'o', 'n', ':']
    ⟨'d', ['e', 's', 'c', 'r', 'i', 'p', 't', 'i', 'o', 'n', ':'], rfl, by decide⟩
    v rest hv c0 hc0
  simpa only [List.cons_append, List.nil_append] using h

lemma matchAt_mkRecordL_key_empty (n d tail : List Char) :
    matchAt (mkRecordL [] n d ++ tail) = none := by
  have hshape : mkRecordL [] n d ++ tail =
      '\x7b' :: ' ' :: 'k' :: 'e' :: 'y' :: ':' :: ' ' :: quoteC :: quoteC :: ',' ::
        ' ' :: 'n' :: 'a' :: 'm' :: 'e' :: ':' :: ' ' :: quoteC ::
        (n ++ quoteC :: ',' ::
          (' ' :: 'd' :: 'e' :: 's' :: 'c' :: 'r' :: 'i' :: 'p' :: 't' :: 'i' :: 'o' ::
            'n' :: ':' :: ' ' :: quoteC ::
            (d ++ quoteC :: ',' :: (' ' :: '\x7d' :: ',' :: '\n' :: tail)))) := by
    simp [mkRecordL, quoteC, List.append_assoc]
  rw [hshape]
  simp only [matchAt, litM_brace, fieldM_key_empty]

lemma matchAt_mkRecordL_name_empty (k d tail : List Char) (hk : goodFieldL k) :
    matchAt (mkRecordL k [] d ++ tail) = none := by
  have hshape : mkRecordL k [] d ++ tail =
      '\x7b' :: ' ' :: 'k' :: 'e' :: 'y' :: ':' :: ' ' :: quoteC ::
        (k ++ quoteC :: ',' ::
          (' ' :: 'n' :: 'a' :: 'm' :: 'e' :: ':' :: ' ' :: quoteC :: quoteC :: ',' ::
            ' ' :: 'd' :: 'e' :: 's' :: 'c' :: 'r' :: 'i' :: 'p' :: 't' :: 'i' :: 'o' ::
            'n' :: ':' :: ' ' :: quoteC ::
            (d ++ quoteC :: ',' :: (' ' :: '\x7d' :: ',' :: '\n' :: tail)))) := by
    simp [mkRecordL, quoteC, List.append_assoc]
  rw [hshape]
  simp only [matchAt, litM_brace, fieldM_key k _ hk, fieldM_name_empty]

lemma matchAt_mkRecordL_desc_empty (k n tail : List Char)
    (hk : goodFieldL k) (hn : goodFieldL n) :
    matchAt (mkRecordL k n [] ++ tail) = none := by
  have hshape : mkRecordL k n [] ++ tail =
      '\x7b' :: ' ' :: 'k' :: 'e' :: 'y' :: ':' :: ' ' :: quoteC ::
        (k ++ quoteC :: ',' ::
          (' ' :: 'n' :: 'a' :: 'm' :: 'e' :: ':' :: ' ' :: quoteC ::
            (n ++ quoteC :: ',' ::
              (' ' :: 'd' :: 'e' :: 's' :: 'c' :: 'r' :: 'i' :: 'p' :: 't' :: 'i' :: 'o' ::
                'n' :: ':' :: ' ' :: quoteC :: quoteC :: ',' ::
                ' ' :: '\x7d' :: ',' :: '\n' :: tail)))) := by
    simp [mkRecordL, quoteC, List.append_assoc]
  rw [hshape]
  simp only [matchAt, litM_brace, fieldM_key k _ hk, fieldM_name n _ hn, fieldM_desc_empty]

lemma matchAt_mkRecordNCL_nocomma (k n d tail : List Char)
    (hk : goodFieldL k) (hn : goodFieldL n) (hd : goodFieldL d) :
    matchAt (mkRecordNCL k n d ++ tail) = none := by
  have hshape : mkRecordNCL k n d ++ tail =
      '\x7b' :: ' ' :: 'k' :: 'e' :: 'y' :: ':' :: ' ' :: quoteC ::
        (k ++ quoteC :: ',' ::
          (' ' :: 'n' :: 'a' :: 'm' :: 'e' :: ':' :: ' ' :: quoteC ::
            (n ++ quoteC :: ',' ::
              (' ' :: 'd' :: 'e' :: 's' :: 'c' :: 'r' :: 'i' :: 'p' :: 't' :: 'i' :: 'o' ::
                'n' :: ':' :: ' ' :: quoteC ::
                (d ++ quoteC :: ' ' :: ('\x7d' :: ',' :: '\n' :: tail)))))) := by
    simp [mkRecordNCL, quoteC, List.append_assoc]
  rw [hshape]
  simp only [matchAt, litM_brace, fieldM_key k _ hk, fieldM_name n _ hn,
    fieldM_desc_nocomma d _ hd ' ' (by decide)]

lemma mkRecordL_decomp (k n d : List Char) :
    mkRecordL k n d = '\x7b' :: (" key: \x27".data ++ (k ++ ("\x27, name: \x27".data ++
      (n ++ ("\x27, description: \x27".data ++ (d ++ "\x27, \x7d,\n".data)))))) := by
  simp [mkRecordL, List.append_assoc]

lemma mkRecordNCL_decomp (k n d : List Char) :
    mkRecordNCL k n d = '\x7b' :: (" key: \x27".data ++ (k ++ ("\x27, name: \x27".data ++
      (n ++ ("\x27, description: \x27".data ++ (d ++ "\x27 \x7d,\n".data)))))) := by
  simp [mkRecordNCL, List.append_assoc]

lemma no_brace_body (k n d : List Char)
    (hk : tameFieldL k) (hn : tameFieldL n) (hd : tameFieldL d) :
    ∀ c ∈ " key: \x27".data ++ (k ++ ("\x27, name: \x27".data ++
      (n ++ ("\x27, description: \x27".data ++ (d ++ "\x27, \x7d,\n".data))))),
      c ≠ '\x7b' := by
  intro c hc
  have hA : ∀ x ∈ " key: \x27".data, x ≠ '\x7b' := by decide
  have hB : ∀ x ∈ "\x27, name: \x27".data, x ≠ '\x7b' := by decide
  have hC : ∀ x ∈ "\x27, description: \x27".data, x ≠ '\x7b' := by decide
  have hD : ∀ x ∈ "\x27, \x7d,\n".data, x ≠ '\x7b' := by decide
  simp only [List.mem_append] at hc
  rcases hc with hc | hc | hc | hc | hc | hc | hc
  · exact hA c hc
  · exact (hk c hc).2
  · exact hB c hc
  · exact (hn c hc).2
  · exact hC c hc
  · exact (hd c hc).2
  · exact hD c hc

lemma no_brace_body_nc (k n d : List Char)
    (hk : tameFieldL k) (hn : tameFieldL n) (hd : tameFieldL d) :
    ∀ c ∈ " key: \x27".data ++ (k ++ ("\x27, name: \x27".data ++
      (n ++ ("\x27, description: \x27".data ++ (d ++ "\x27 \x7d,\n".data))))),
      c ≠ '\x7b' := by
  intro c hc
  have hA : ∀ x ∈ " key: \x27".data, x ≠ '\x7b' := by decide
  have hB : ∀ x ∈ "\x27, name: \x27".data, x ≠ '\x7b' := by decide
  have hC : ∀ x ∈ "\x27, description: \x27".data, x ≠ '\x7b' := by decide
  have hD : ∀ x ∈ "\x27 \x7d,\n".data, x ≠ '\x7b' := by decide
  simp only [List.mem_append] at hc
  rcases hc with hc | hc | hc | hc | hc | hc | hc
  · exact hA c hc
  · exact (hk c hc).2
  · exact hB c hc
  · exact (hn c hc).2
  · exact hC c hc
  · exact (hd c hc).2
  · exact hD c hc

lemma findAllL_mkRecordL_none (k n d : List Char) (hk : tameFieldL k) (hn : tameFieldL n)
    (hd : tameFieldL d) (hfail : matchAt (mkRecordL k n d) = none) :
    findAllL (mkRecordL k n d) = [] := by
  rw [mkRecordL_decomp] at hfail ⊢
  rw [findAllL_cons_none hfail]
  exact findAllL_no_brace _ (no_brace_body k n d hk hn hd)

lemma findAllL_mkRecordNCL_none (k n d : List Char) (hk : tameFieldL k) (hn : tameFieldL n)
    (hd : tameFieldL d) (hfail : matchAt (mkRecordNCL k n d) = none) :
    findAllL (mkRecordNCL k n d) = [] := by
  rw [mkRecordNCL_decomp] at hfail ⊢
  rw [findAllL_cons_none hfail]
  exact findAllL_no_brace _ (no_brace_body_nc k n d hk hn hd)

lemma goodFieldL_of_tame {s : String} (ht : tameField s) (hne : s ≠ "") :
    goodFieldL s.data :=
  ⟨fun hh => hne (String.ext hh), fun c hcm => (ht c hcm).1⟩

lemma extract_mkFile_single_empty (k n d : String)
    (hk : tameField k) (hn : tameField n) (hd : tameField d)
    (he : k = "" ∨ n = "" ∨ d = "") :
    extract (mkFile [(k, n, d)]) = [] := by
  have hfail : matchAt (mkRecordL k.data n.data d.data) = none := by
    by_cases h1 : k = ""
    · subst h1
      have h := matchAt_mkRecordL_key_empty n.data d.data []
      rwa [List.append_nil] at h
    · by_cases h2 : n = ""
      · subst h2
        have h := matchAt_mkRecordL_name_empty k.data d.data []
          (goodFieldL_of_tame hk h1)
        rwa [List.append_nil] at h
      · have h3 : d = "" := by
          rcases he with he | he | he
          · exact absurd he h1
          · exact absurd he h2
          · exact he
        subst h3
        have h := matchAt_mkRecordL_desc_empty k.data n.data []
          (goodFieldL_of_tame hk h1) (goodFieldL_of_tame hn h2)
        rwa [List.append_nil] at h
  have hfind : findAllL (mkRecordL k.data n.data d.data) = [] :=
    findAllL_mkRecordL_none k.data n.data d.data hk hn hd hfail
  unfold extract mkFile
  rw [show (String.mk (mkFileL ([(k, n, d)].map
        fun r => (r.1.data, r.2.1.data, r.2.2.data)))).data
      = mkRecordL k.data n.data d.data ++ [] from rfl, List.append_nil, hfind]
  rfl

lemma extract_mkFileNC_none (k n d : String)
    (hk : tameField k) (hn : tameField n) (hd : tameField d)
    (hk0 : k ≠ "") (hn0 : n ≠ "") (hd0 : d ≠ "") :
    extract (mkFileNC (k, n, d)) = [] := by
  have hfail : matchAt (mkRecordNCL k.data n.data d.data) = none := by
    have h := matchAt_mkRecordNCL_nocomma k.data n.data d.data []
      (goodFieldL_of_tame hk hk0) (goodFieldL_of_tame hn hn0) (goodFieldL_of_tame hd hd0)
    rwa [List.append_nil] at h
  have hfind : findAllL (mkRecordNCL k.data n.data d.data) = [] :=
    findAllL_mkRecordNCL_none k.data n.data d.data hk hn hd hfail
  unfold extract mkFileNC
  rw [show (String.mk (mkRecordNCL (k, n, d).1.data (k, n, d).2.1.data
        (k, n, d).2.2.data)).data = mkRecordNCL k.data n.data d.data from rfl, hfind]
  rfl

/-! ### File-order property of the template keys -/

/-- Identifier of the extracted record at position i. -/
def identAt (c : String) (i : Nat) : String := ((extract c).getD i ("", "", "")).1

/-- Key a occurs at some position strictly before some occurrence of key b. -/
def keyBefore (K : List String) (a b : String) : Bool :=
  (List.range K.length).any fun q =>
    (K.getD q "" == b) && (List.range q).any fun p => K.getD p "" == a

/-- The ordering property claimed for the template: within each record the
name key precedes the description key, and for records at positions i less
than j both keys of record i precede both keys of record j. -/
def fileOrderOK (c : String) : Bool :=
  ((List.range (extract c).length).all fun i =>
    keyBefore (templateKeys c) (nameKey (identAt c i)) (descKey (identAt c i))) &&
  ((List.range (extract c).length).all fun j =>
    (List.range j).all fun i =>
      keyBefore (templateKeys c) (nameKey (identAt c i)) (nameKey (identAt c j)) &&
      keyBefore (templateKeys c) (nameKey (identAt c i)) (descKey (identAt c j)) &&
      keyBefore (templateKeys c) (descKey (identAt c i)) (nameKey (identAt c j)) &&
      keyBefore (templateKeys c) (descKey (identAt c i)) (descKey (identAt c j)))

lemma keyBefore_intro (K : List String) (a b : String) (p q : Nat) (hpq : p < q)
    (hq : q < K.length) (hb : K.getD q "" = b) (ha : K.getD p "" = a) :
    keyBefore K a b = true := by
  unfold keyBefore
  rw [List.any_eq_true]
  refine ⟨q, List.mem_range.mpr hq, ?_⟩
  rw [Bool.and_eq_true]
  refine ⟨beq_iff_eq.mpr hb, ?_⟩
  rw [List.any_eq_true]
  exact ⟨p, List.mem_range.mpr hpq, beq_iff_eq.mpr ha⟩

lemma templateKeys_of_nodup (c : String)
    (hnd : ((extract c).map (fun m => m.1)).Nodup) :
    templateKeys c = pairKeysS ((extract c).map (fun m => m.1)) := by
  unfold templateKeys templateOf
  rw [buildTemplate_keys, newIdents_of_nodup _ [] hnd (by simp)]

lemma fileOrderOK_of_nodup (c : String)
    (hnd : ((extract c).map (fun m => m.1)).Nodup) : fileOrderOK c = true := by
  have hkeys := templateKeys_of_nodup c hnd
  have hlen : (templateKeys c).length = 2 * (extract c).length := by
    rw [hkeys, pairKeysS_length, List.length_map]
  have heven : ∀ i, i < (extract c).length →
      (templateKeys c).getD (2 * i) "" = nameKey (identAt c i) := by
    intro i hi
    rw [hkeys, pairKeysS_getD_even _ i (by simpa using hi), getD_map_fst _ i hi]
    rfl
  have hodd : ∀ i, i < (extract c).length →
      (templateKeys c).getD (2 * i + 1) "" = descKey (identAt c i) := by
    intro i hi
    rw [hkeys, pairKeysS_getD_odd _ i (by simpa using hi), getD_map_fst _ i hi]
    rfl
  unfold fileOrderOK
  rw [Bool.and_eq_true]
  constructor
  · rw [List.all_eq_true]
    intro i hi
    have hi' : i < (extract c).length := List.mem_range.mp hi
    exact keyBefore_intro _ _ _ (2 * i) (2 * i + 1) (by omega)
      (by omega) (hodd i hi') (heven i hi')
  · rw [List.all_eq_true]
    intro j hj
    rw [List.all_eq_true]
    intro i hi
    have hj' : j < (extract c).length := List.mem_range.mp hj
    have hi' : i < j := List.mem_range.mp hi
    have hij : i < (extract c).length := by omega
    rw [Bool.and_eq_true, Bool.and_eq_true, Bool.and_eq_true]
    refine ⟨⟨⟨?_, ?_⟩, ?_⟩, ?_⟩
    · exact keyBefore_intro _ _ _ (2 * i) (2 * j) (by omega) (by omega)
        (heven j hj') (heven i hij)
    · exact keyBefore_intro _ _ _ (2 * i) (2 * j + 1) (by omega) (by omega)
        (hodd j hj') (heven i hij)
    · exact keyBefore_intro _ _ _ (2 * i + 1) (2 * j) (by omega) (by omega)
        (heven j hj') (hodd i hij)
    · exact keyBefore_intro _ _ _ (2 * i + 1) (2 * j + 1) (by omega) (by omega)
        (hodd j hj') (hodd i hij)

/-! ### Additional helper facts for the claims -/

lemma newIdents_mem : ∀ (l seen : List String) (k : String),
    k ∈ newIdents seen l ↔ (k ∈ l ∧ k ∉ seen)
  | [], seen, k => by simp [newIdents]
  | x :: xs, seen, k => by
    rw [show newIdents seen (x :: xs) =
        if x ∈ seen then newIdents seen xs else x :: newIdents (x :: seen) xs from rfl]
    split
    next hx =>
      rw [newIdents_mem xs seen k, List.mem_cons]
      constructor
      · rintro ⟨h1, h2⟩
        exact ⟨Or.inr h1, h2⟩
      · rintro ⟨h1 | h1, h2⟩
        · subst h1
          exact absurd hx h2
        · exact ⟨h1, h2⟩
    next hx =>
      rw [List.mem_cons, List.mem_cons]
      constructor
      · rintro (h1 | h1)
        · subst h1
          exact ⟨Or.inl rfl, hx⟩
        · rw [newIdents_mem xs (x :: seen) k] at h1
          refine ⟨Or.inr h1.1, fun hh => h1.2 (List.mem_cons_of_mem _ hh)⟩
      · rintro ⟨h1 | h1, h2⟩
        · exact Or.inl h1
        · by_cases hxk : k = x
          · exact Or.inl hxk
          · exact Or.inr ((newIdents_mem xs (x :: seen) k).mpr
              ⟨h1, fun hh => (List.mem_cons.mp hh).elim hxk h2⟩)

lemma newIdents_nodup : ∀ (l seen : List String), (newIdents seen l).Nodup
  | [], _ => List.nodup_nil
  | x :: xs, seen => by
    rw [show newIdents seen (x :: xs) =
        if x ∈ seen then newIdents seen xs else x :: newIdents (x :: seen) xs from rfl]
    split
    · exact newIdents_nodup xs seen
    · rw [List.nodup_cons]
      refine ⟨fun hh => ?_, newIdents_nodup xs (x :: seen)⟩
      exact ((newIdents_mem xs (x :: seen) x).mp hh).2 (List.mem_cons_self x seen)

/-! ### Claim theorems -/

/-- C1 counterexample: a file with two well-formed records (all six fields
non-empty and quote-free) that share the identifier A. Extraction yields
exactly K = 2 matches and the count reports 2, but the template holds only
2 keys, not 2K = 4: the claim as stated fails for duplicated identifiers. -/
theorem C1_counterexample :
    goodRec ("A", "n1", "d1") ∧ goodRec ("A", "n2", "d2") ∧
    extract (mkFile [("A", "n1", "d1"), ("A", "n2", "d2")]) =
      [("A", "n1", "d1"), ("A", "n2", "d2")] ∧
    (extract (mkFile [("A", "n1", "d1"), ("A", "n2", "d2")])).length = 2 ∧
    (templateOf (mkFile [("A", "n1", "d1"), ("A", "n2", "d2")])).length = 2 ∧
    (templateOf (mkFile [("A", "n1", "d1"), ("A", "n2", "d2")])).length ≠
      2 * (extract (mkFile [("A", "n1", "d1"), ("A", "n2", "d2")])).length := by
  decide

set_option maxRecDepth 8000 in
/-- C1 amended: for a file of K well-formed records whose key identifiers
are moreover pairwise distinct, extraction yields exactly the K records,
the count line reports K, and the template consists of exactly the keys
clangFormat.option.key.name and clangFormat.option.key.description of each
record in order, 2K keys in total. -/
theorem C1_extraction_counts (rs : List (String × String × String))
    (hgood : ∀ r ∈ rs, goodRec r) (hnd : (rs.map (fun r => r.1)).Nodup) :
    extract (mkFile rs) = rs ∧
    foundLine (mkFile rs) = "找到 " ++ Nat.repr rs.length ++ " 个配置项\n" ∧
    templateKeys (mkFile rs) = pairKeysS (rs.map (fun r => r.1)) ∧
    (templateOf (mkFile rs)).length = 2 * rs.length := by
  have h1 : extract (mkFile rs) = rs := extract_mkFile rs hgood
  have hkeys : templateKeys (mkFile rs) = pairKeysS (rs.map (fun r => r.1)) := by
    rw [templateKeys_of_nodup (mkFile rs) (by rw [h1]; exact hnd), h1]
  refine ⟨h1, ?_, hkeys, ?_⟩
  · unfold foundLine
    rw [h1]
  · have hlen : (templateOf (mkFile rs)).length = (templateKeys (mkFile rs)).length := by
      unfold templateKeys
      rw [List.length_map]
    rw [hlen, hkeys, pairKeysS_length, List.length_map]

/-- C1 witness at one concrete well-formed record. -/
theorem C1_witness :
    ((∀ r ∈ [("Alpha", "名称A", "描述A")], goodRec r) ∧
      ([("Alpha", "名称A", "描述A")].map
        (fun r : String × String × String => r.1)).Nodup) ∧
    (extract (mkFile [("Alpha", "名称A", "描述A")]) = [("Alpha", "名称A", "描述A")] ∧
      foundLine (mkFile [("Alpha", "名称A", "描述A")]) =
        "找到 " ++ Nat.repr 1 ++ " 个配置项\n" ∧
      templateKeys (mkFile [("Alpha", "名称A", "描述A")]) =
        pairKeysS (["Alpha"]) ∧
      (templateOf (mkFile [("Alpha", "名称A", "描述A")])).length = 2) :=
  ⟨⟨by decide, by decide⟩, by
    have h := C1_extraction_counts [("Alpha", "名称A", "描述A")] (by decide) (by decide)
    exact h⟩

set_option maxRecDepth 8000 in
/-- C2 counterexample: records keyed A, B, A in that order. The two keys of
the third record (identifier A) sit at template positions 0 and 1, before
both keys of the second record (identifier B) at positions 2 and 3, so the
file-order claim fails for the pair of positions 1 and 2. -/
theorem C2_counterexample :
    (extract (mkFile [("A", "a", "b"), ("B", "c", "d"), ("A", "e", "f")])).map
        (fun m => m.1) = ["A", "B", "A"] ∧
    templateKeys (mkFile [("A", "a", "b"), ("B", "c", "d"), ("A", "e", "f")]) =
      [nameKey "A", descKey "A", nameKey "B", descKey "B"] ∧
    fileOrderOK (mkFile [("A", "a", "b"), ("B", "c", "d"), ("A", "e", "f")]) = false := by
  decide

set_option maxRecDepth 8000 in
/-- C2 amended: whenever the extracted identifiers are pairwise distinct,
the template key order matches file order: the name key precedes the
description key within each record, and both keys of an earlier record
precede both keys of a later record. -/
theorem C2_key_order (c : String)
    (hnd : ((extract c).map (fun m => m.1)).Nodup) : fileOrderOK c = true :=
  fileOrderOK_of_nodup c hnd

/-- C2 witness at a two-record file with distinct identifiers. -/
theorem C2_witness :
    ((extract (mkFile [("A", "a", "b"), ("B", "c", "d")])).map
      (fun m => m.1)).Nodup ∧
    fileOrderOK (mkFile [("A", "a", "b"), ("B", "c", "d")]) = true :=
  ⟨by decide, C2_key_order (mkFile [("A", "a", "b"), ("B", "c", "d")]) (by decide)⟩

set_option maxRecDepth 8000 in
/-- C3: every value of the printed template is the empty string. The
template is by construction a flat association list of string keys and
string values, so the flatness and string-typing parts of the claim hold
by the shape of translation_data in the embedding, and this theorem
establishes that each stored value is exactly the empty string. -/
theorem C3_values_empty (c : String) : ∀ kv ∈ templateOf c, kv.2 = "" :=
  buildTemplate_values (extract c)

/-- C3 witness on a concrete one-record file. -/
theorem C3_witness :
    (nameKey "Alpha", "") ∈ templateOf (mkFile [("Alpha", "名称A", "描述A")]) ∧
    ((nameKey "Alpha", "") : String × String).2 = "" :=
  ⟨by decide, C3_values_empty (mkFile [("Alpha", "名称A", "描述A")])
    (nameKey "Alpha", "") (by decide)⟩

/-- C4: the whole standard output is a function of the file content alone;
the embedding passes the command line and the environment to runScript,
which consults neither, so two runs given equal content and arbitrary
arguments and environments print byte-identical output. -/
theorem C4_deterministic (content : String) (args1 args2 : List String)
    (env1 env2 : List (String × String)) :
    runScript content args1 env1 = runScript content args2 env2 := rfl

/-- C5: when the scan yields no match, including on the empty file, the
script completes normally, the count line reports zero, and the JSON
section renders the empty mapping. -/
theorem C5_zero_matches (c : String) (h : extract c = []) :
    (extract c).length = 0 ∧ foundLine c = "找到 0 个配置项\n" ∧
    templateOf c = [] ∧ jsonDumps (templateOf c) = "\x7b\x7d" := by
  have ht : templateOf c = [] := by
    unfold templateOf
    rw [h]
    rfl
  refine ⟨by rw [h]; rfl, ?_, ht, by rw [ht]; rfl⟩
  unfold foundLine
  rw [h]
  rfl

/-- C5 witness: the empty file. -/
theorem C5_witness :
    extract "" = [] ∧
    ((extract "").length = 0 ∧ foundLine "" = "找到 0 个配置项\n" ∧
      templateOf "" = [] ∧ jsonDumps (templateOf "") = "\x7b\x7d") :=
  ⟨by decide, C5_zero_matches "" (by decide)⟩

/-- C6 counterexample: one record whose name field contains single quotes,
namely the record built from key A, a name field reading
x quote comma space description colon space quote y, and description D.
The claim says such a record is excluded from the count and the template,
but the pattern finds a truncated match inside it: the count is 1 and both
keys derived from its identifier A appear in the template. -/
theorem C6_counterexample :
    extract (mkFile [("A", "x\x27, description: \x27y", "D")]) = [("A", "x", "y")] ∧
    (extract (mkFile [("A", "x\x27, description: \x27y", "D")])).length = 1 ∧
    templateKeys (mkFile [("A", "x\x27, description: \x27y", "D")]) =
      [nameKey "A", descKey "A"] := by
  decide

set_option maxRecDepth 8000 in
/-- C6 amended: no extracted match ever carries a field containing a single
quote, so a record one of whose fields embeds a single quote never appears
as itself among the matches; it can however still contribute a truncated
match, as the counterexample shows, so it is not always excluded from the
count and the template. -/
theorem C6_no_quote_in_fields (c : String) (k n d : String)
    (h : (k, n, d) ∈ extract c) :
    (∀ ch ∈ k.data, ch ≠ quoteC) ∧ (∀ ch ∈ n.data, ch ≠ quoteC) ∧
      (∀ ch ∈ d.data, ch ≠ quoteC) := by
  obtain ⟨hk, hn, hd⟩ := extract_good c k n d h
  exact ⟨hk.2, hn.2, hd.2⟩

/-- C6 witness on a concrete extracted match. -/
theorem C6_witness :
    ("Alpha", "名称A", "描述A") ∈ extract (mkFile [("Alpha", "名称A", "描述A")]) ∧
    ((∀ ch ∈ "Alpha".data, ch ≠ quoteC) ∧ (∀ ch ∈ "名称A".data, ch ≠ quoteC) ∧
      (∀ ch ∈ "描述A".data, ch ≠ quoteC)) :=
  ⟨by decide, C6_no_quote_in_fields (mkFile [("Alpha", "名称A", "描述A")])
    "Alpha" "名称A" "描述A" (by decide)⟩

/-- C7: for every input, the template keys are exactly the name and
description keys of the distinct extracted identifiers in first-occurrence
order, each appearing once, so the key count is twice the number of
distinct identifiers rather than twice the match count; a repeated
identifier re-assigns the two existing entries in place, the later
insertion overwriting the earlier (both stores write the empty string, see
the C3 theorem for the stored values). -/
theorem C7_duplicate_key_semantics (c : String) :
    templateKeys c = pairKeysS (newIdents [] ((extract c).map (fun m => m.1))) ∧
    (newIdents [] ((extract c).map (fun m => m.1))).Nodup ∧
    (∀ k, k ∈ newIdents [] ((extract c).map (fun m => m.1)) ↔
      k ∈ (extract c).map (fun m => m.1)) ∧
    (templateOf c).length = 2 * (newIdents [] ((extract c).map (fun m => m.1))).length := by
  refine ⟨buildTemplate_keys (extract c), newIdents_nodup _ [], ?_, ?_⟩
  · intro k
    rw [newIdents_mem]
    simp
  · have hlen : (templateOf c).length = (templateKeys c).length := by
      unfold templateKeys
      rw [List.length_map]
    rw [hlen]
    show ((buildTemplate (extract c)).map Prod.fst).length = _
    rw [buildTemplate_keys (extract c), pairKeysS_length]

/-- C8: the load is not guarded by any handler, so a missing, unreadable or
undecodable input file terminates the process with the propagated error and
no report is produced; there is no retry and no recovery. -/
theorem C8_load_failure_fatal (fs : FileOutcome) (args : List String)
    (env : List (String × String)) (h : isOk fs = false) :
    runProcess fs args env = Except.error (loadErrMsg fs) := by
  cases fs with
  | ok c => simp [isOk] at h
  | missing => rfl
  | unreadable => rfl
  | undecodable => rfl

/-- C8 witness: the missing-file outcome. -/
theorem C8_witness :
    isOk FileOutcome.missing = false ∧
    runProcess FileOutcome.missing [] [] = Except.error "FileNotFoundError" :=
  ⟨rfl, C8_load_failure_fatal FileOutcome.missing [] [] rfl⟩

/-- C9 counterexample: a record whose name field is empty but whose
description field embeds quotes and an opening brace spelling a complete
inner record. The scan fails on the empty name, restarts inside the
description text and produces the truncated match with identifier a, so
the record contributes a match and template keys after all: the claim as
universally stated fails. -/
theorem C9_counterexample :
    extract (mkFile
        [("A", "", "\x7b key: \x27a\x27, name: \x27b\x27, description: \x27c\x27,")]) =
      [("a", "b", "c")] ∧
    (extract (mkFile
        [("A", "", "\x7b key: \x27a\x27, name: \x27b\x27, description: \x27c\x27,")])).length
      = 1 ∧
    templateKeys (mkFile
        [("A", "", "\x7b key: \x27a\x27, name: \x27b\x27, description: \x27c\x27,")]) =
      [nameKey "a", descKey "a"] := by
  decide

set_option maxRecDepth 8000 in
/-- C9 amended: a record one of whose fields is empty is excluded from the
count and the template provided its fields contain no single quote and no
opening brace; the extra tameness condition is forced by the
counterexample, where quotes and a brace inside another field of the same
record manufacture a spurious match. -/
theorem C9_empty_field_excluded (k n d : String)
    (hk : tameField k) (hn : tameField n) (hd : tameField d)
    (he : k = "" ∨ n = "" ∨ d = "") :
    extract (mkFile [(k, n, d)]) = [] ∧
    (extract (mkFile [(k, n, d)])).length = 0 ∧
    templateOf (mkFile [(k, n, d)]) = [] := by
  have h := extract_mkFile_single_empty k n d hk hn hd he
  refine ⟨h, by rw [h]; rfl, ?_⟩
  unfold templateOf
  rw [h]
  rfl

/-- C9 witness: a record with an empty description field. -/
theorem C9_witness :
    (tameField "Key1" ∧ tameField "名称" ∧ tameField "" ∧
      (("Key1" : String) = "" ∨ ("名称" : String) = "" ∨ ("" : String) = "")) ∧
    (extract (mkFile [("Key1", "名称", "")]) = [] ∧
      (extract (mkFile [("Key1", "名称", "")])).length = 0 ∧
      templateOf (mkFile [("Key1", "名称", "")]) = []) :=
  ⟨⟨by decide, by decide, by decide, Or.inr (Or.inr rfl)⟩,
    C9_empty_field_excluded "Key1" "名称" "" (by decide) (by decide) (by decide)
      (Or.inr (Or.inr rfl))⟩

/-- C10 counterexample: a record written with the description as the last
property, its closing quote followed by a space rather than a comma, but
whose description field embeds a quote directly followed by a comma. The
pattern closes the capture at that inner quote and matches, so the record
is not excluded: the claim as universally stated fails. -/
theorem C10_counterexample :
    extract (mkFileNC ("A", "N", "x\x27, y")) = [("A", "N", "x")] ∧
    (extract (mkFileNC ("A", "N", "x\x27, y"))).length = 1 ∧
    templateKeys (mkFileNC ("A", "N", "x\x27, y")) = [nameKey "A", descKey "A"] := by
  decide

/-- C10 amended: a record whose description closing quote is not followed
by a comma is excluded from the count and the template provided its three
fields are non-empty and contain no single quote and no opening brace; the
tameness condition is forced by the counterexample. -/
theorem C10_no_trailing_comma_excluded (k n d : String)
    (hk : tameField k) (hn : tameField n) (hd : tameField d)
    (hk0 : k ≠ "") (hn0 : n ≠ "") (hd0 : d ≠ "") :
    extract (mkFileNC (k, n, d)) = [] ∧
    (extract (mkFileNC (k, n, d))).length = 0 ∧
    templateOf (mkFileNC (k, n, d)) = [] := by
  have h := extract_mkFileNC_none k n d hk hn hd hk0 hn0 hd0
  refine ⟨h, by rw [h]; rfl, ?_⟩
  unfold templateOf
  rw [h]
  rfl

/-- C10 witness: a concrete record in the no-trailing-comma layout. -/
theorem C10_witness :
    (tameField "Key1" ∧ tameField "名称" ∧ tameField "描述" ∧
      ("Key1" : String) ≠ "" ∧ ("名称" : String) ≠ "" ∧ ("描述" : String) ≠ "") ∧
    (extract (mkFileNC ("Key1", "名称", "描述")) = [] ∧
      (extract (mkFileNC ("Key1", "名称", "描述"))).length = 0 ∧
      templateOf (mkFileNC ("Key1", "名称", "描述")) = []) :=
  ⟨⟨by decide, by decide, by decide, by decide, by decide, by decide⟩,
    C10_no_trailing_comma_excluded "Key1" "名称" "描述"
      (by decide) (by decide) (by decide) (by decide) (by decide) (by decide)⟩
